import Mathlib

/-!
# Verification of the ET Legacy server-manager provisioning tool

Shallow embedding of the repository's core logic in Lean 4, with theorems
settling the specification claims about it.

Conventions:
* Python strings are modelled as `List Char` (built from Lean string
  literals via `cs`).
* Machine-level concerns (HTML fetching, subprocess spawning) enter the
  model as explicit inputs: a subprocess is its exit code and captured
  output, a fetched page is the list of links the scraper would iterate.
* Fallible operations return `Option`/`Except`; an uncaught Python
  exception is `Option.none` at the workflow level.
-/

def cs (s : String) : List Char := s.toList

/-! ## Permission normalization (`utils/permissions.py`, `PermissionsManager.set_file_permissions`)

The instance tree under `<install_dir>/et` is modelled as a node tree
carrying Unix mode bits.  `set_file_permissions` does, in order:
1. `chgrp -R etusers` (ownership only — no mode change, not modelled);
2. an `os.walk` pass: every directory strictly under the root is chmod'd
   to `0o775` and then or'ed with the setgid bit `0o2000`; every regular
   file is chmod'd to `0o664`;
3. a `find -name '*.sh' / '*.x86_64' -type f -exec chmod 775` pass that
   re-applies mode `0o775` to files with those suffixes.
The blanket pass (2) runs before the reinstatement pass (3).
-/

mutual

inductive PNode where
  | file (mode : Nat) : PNode
  | dir (mode : Nat) (children : PForest) : PNode

inductive PForest where
  | nil : PForest
  | cons (name : List Char) (node : PNode) (rest : PForest) : PForest

end

/-- A file name "executable by convention": ends in `.sh` or `.x86_64`
(the two `find -name` patterns in `set_file_permissions`). -/
def execName (n : List Char) : Bool :=
  (cs ".sh").isSuffixOf n || (cs ".x86_64").isSuffixOf n

mutual

/-- The `os.walk` blanket pass on one node (the node's own mode is set:
directories to `775` plus setgid, files to `664`). -/
def blanketNode : PNode → PNode
  | .file _ => .file 0o664
  | .dir _ c => .dir (0o775 ||| 0o2000) (blanketForest c)

/-- The `os.walk` blanket pass on a directory's children. -/
def blanketForest : PForest → PForest
  | .nil => .nil
  | .cons n c r => .cons n (blanketNode c) (blanketForest r)

end

mutual

/-- The `find ... -exec chmod 775` reinstatement pass on one named node. -/
def reinstNode (name : List Char) : PNode → PNode
  | .file m => if execName name then .file 0o775 else .file m
  | .dir m c => .dir m (reinstForest c)

/-- The reinstatement pass on a directory's children. -/
def reinstForest : PForest → PForest
  | .nil => .nil
  | .cons n c r => .cons n (reinstNode n c) (reinstForest r)

end

/-- `os.walk(install_dir/et)` touches everything strictly under the root
but not the root directory's own mode. -/
def blanketRoot : PNode → PNode
  | .file m => .file m
  | .dir m c => .dir m (blanketForest c)

/-- `find install_dir/et -type f` likewise only re-modes files under the
root. -/
def reinstRoot : PNode → PNode
  | .file m => .file m
  | .dir m c => .dir m (reinstForest c)

/-- `PermissionsManager.set_file_permissions`: blanket file-mode pass
first, executable-reinstatement pass second. -/
def setFilePermissions (t : PNode) : PNode :=
  reinstRoot (blanketRoot t)

mutual

/-- The claimed post-state of one named node: directories carry the
group-write (`0o020`) and setgid (`0o2000`) bits, regular files carry
group-write, and files whose name ends in `.sh` or `.x86_64` carry an
execute bit. -/
def goodNode (name : List Char) : PNode → Bool
  | .file m => (m &&& 0o020 != 0) && (!execName name || (m &&& 0o111 != 0))
  | .dir m c => (m &&& 0o020 != 0) && (m &&& 0o2000 != 0) && goodForest c

/-- The claimed post-state of every node of a forest. -/
def goodForest : PForest → Bool
  | .nil => true
  | .cons n c r => goodNode n c && goodForest r

end

/-- The claimed post-state of everything strictly under the install root. -/
def goodTree : PNode → Bool
  | .file _ => true
  | .dir _ c => goodForest c

/-! ## Version catalog (`lib/download_manager.py`, `etlserver-manager.py`)

A scraped page is modelled as the list of anchor links the scraper
iterates (each with its display text and `href`).  The regex filters of
the source are translated into executable matchers over `List Char`.
A failed HTTP fetch of a page is `Except.error ()`: inside
`get_available_versions` both fetches sit in `try`/`except` blocks that
turn the error into a printed warning and an empty contribution.
-/

structure Link where
  text : List Char
  href : List Char
deriving DecidableEq

structure Release where
  name : List Char
  url : List Char
  version : List Char
  isStable : Bool
deriving DecidableEq

def containsSub (needle : List Char) : List Char → Bool
  | [] => needle.isEmpty
  | c :: t => needle.isPrefixOf (c :: t) || containsSub needle t

def lowerStr (s : List Char) : List Char := s.map Char.toLower

def isDigitCh (c : Char) : Bool := c.isDigit

/-- `re.search(lit + r"\d+", s)` succeeds: the literal occurs followed by
at least one digit. -/
def hasLitThenDigit (lit : List Char) : List Char → Bool
  | [] => false
  | c :: t =>
    (lit.isPrefixOf (c :: t) && (((c :: t).drop lit.length).headD '\x00').isDigit)
      || hasLitThenDigit lit t

/-- Greedy run of decimal digits together with the remaining input. -/
def digitsRun (s : List Char) : List Char × List Char :=
  let d := s.takeWhile isDigitCh
  (d, s.drop d.length)

/-- `\d+\.\d+\.\d+` anchored at the head of the input: the version
triple and the rest of the input. -/
def tripleAt (s : List Char) : Option (List Char × List Char) :=
  let (d1, r1) := digitsRun s
  if d1 = [] then none else
  match r1 with
  | '.' :: t2 =>
    let (d2, r2) := digitsRun t2
    if d2 = [] then none else
    match r2 with
    | '.' :: t3 =>
      let (d3, r3) := digitsRun t3
      if d3 = [] then none else some (d1 ++ '.' :: d2 ++ '.' :: d3, r3)
    | _ => none
  | _ => none

/-- `re.search(r"v(\d+\.\d+\.\d+)", s)`: group 1 of the leftmost match. -/
def searchVer : List Char → Option (List Char)
  | [] => none
  | c :: t =>
    match (if c = 'v' then (tripleAt t).map Prod.fst else none) with
    | some v => some v
    | none => searchVer t

def stableBase : List Char := cs "https://etlegacy.com/download"

/-- The stable-release record built from a matching link
(`_get_stable_version`). -/
def mkStable (l : Link) : Release :=
  let vstr := (searchVer l.text).getD (cs "Unknown")
  { name := cs "Stable " ++ vstr
    url := stableBase ++ l.href
    version := vstr
    isStable := true }

def stableTextOk (txt : List Char) : Bool :=
  containsSub (cs "linux") (lowerStr txt) && containsSub (cs "64") (lowerStr txt)
    && containsSub (cs ".sh") (lowerStr txt)

/-- `DownloadManager._get_stable_version`: among links whose `href`
matches `/download/file/\d+`, the first whose lower-cased text contains
"linux", "64" and ".sh". -/
def getStableVersion (links : List Link) : Option Release :=
  ((links.filter (fun l => hasLitThenDigit (cs "/download/file/") l.href)).find?
      (fun l => stableTextOk l.text)).map mkStable

/-- First occurrence of a literal reachable over non-newline characters
(a `.*?lit` regex segment); returns the input after the occurrence. -/
def findLit (lit : List Char) : List Char → Option (List Char)
  | [] => if lit.isPrefixOf ([] : List Char) then some [] else none
  | c :: t =>
    if lit.isPrefixOf (c :: t) then some ((c :: t).drop lit.length)
    else if c = '\n' then none else findLit lit t

/-- `re.search(r"/workflow-files/dl/.*?/lnxx8664/.*?\.sh", href)`. -/
def devHrefOk (href : List Char) : Bool :=
  match findLit (cs "/workflow-files/dl/") href with
  | none => false
  | some r1 =>
    match findLit (cs "/lnxx8664/") r1 with
    | none => false
    | some r2 => (findLit (cs ".sh") r2).isSome

def isHexLower (c : Char) : Bool := c.isDigit || ('a' ≤ c && c ≤ 'f')

/-- `re.search(r"etlegacy-v(\d+\.\d+\.\d+(?:-\d+-g[a-f0-9]+)?)", s)`
anchored at the head: group 1 (the greedy optional commit suffix is
taken whenever it matches, otherwise the bare triple). -/
def devVerAt (s : List Char) : Option (List Char) :=
  if (cs "etlegacy-v").isPrefixOf s then
    match tripleAt (s.drop (cs "etlegacy-v").length) with
    | none => none
    | some (v, rest) =>
      match rest with
      | '-' :: r1 =>
        let (ds, r2) := digitsRun r1
        if ds = [] then some v else
        match r2 with
        | '-' :: 'g' :: r3 =>
          let hs := r3.takeWhile isHexLower
          if hs = [] then some v else some (v ++ '-' :: (ds ++ '-' :: 'g' :: hs))
        | _ => some v
      | _ => some v
  else none

def searchDevVer : List Char → Option (List Char)
  | [] => none
  | c :: t =>
    match devVerAt (c :: t) with
    | some v => some v
    | none => searchDevVer t

def devBase : List Char := cs "https://etlegacy.com"

/-- A development-release record (`_get_dev_versions`). -/
def mkDev (l : Link) (v : List Char) : Release :=
  { name := cs "Development " ++ v
    url := devBase ++ l.href
    version := v
    isStable := false }

/-- `DownloadManager._get_dev_versions`: links matching the dev `href`
pattern, in page order, kept when the version regex matches their text.
There is no truncation in this function. -/
def getDevVersions (links : List Link) : List Release :=
  (links.filter (fun l => devHrefOk l.href)).filterMap
    (fun l => (searchDevVer l.text).map (mkDev l))

/-- The stable contribution of `get_available_versions` (empty on fetch
error or when no stable link is found). -/
def stablePart (sf : Except Unit (List Link)) : List Release :=
  match sf with
  | .ok links => (getStableVersion links).toList
  | .error _ => []

/-- The development contribution of `get_available_versions` (empty on
fetch error). -/
def devPart (df : Except Unit (List Link)) : List Release :=
  match df with
  | .ok links => getDevVersions links
  | .error _ => []

def pageLinks (df : Except Unit (List Link)) : List Link :=
  match df with
  | .ok links => links
  | .error _ => []

/-- `DownloadManager.get_available_versions`: append the stable release
(when fetched and found) and then all development releases (when
fetched); each source failure is caught and degrades to an empty
contribution. -/
def getAvailableVersions (sf df : Except Unit (List Link)) : List Release :=
  stablePart sf ++ devPart df

structure Build where
  ver : List Char
  hsh : List Char
  url : List Char
deriving DecidableEq

def isWordCh (c : Char) : Bool := c.isAlphanum || c = '_'

/-- After group 1, the pattern `-(\w+)-x86_64\.sh`: a hyphen, the word
group, then the literal tail. -/
def devHashTail (s : List Char) : Option (List Char) :=
  match s with
  | '-' :: t =>
    let w := t.takeWhile isWordCh
    if w = [] then none
    else if (cs "-x86_64.sh").isPrefixOf (t.drop w.length) then some w else none
  | _ => none

/-- Backtracking of the greedy `[\d\.\-]+` group: try the longest run
first, then shorter ones, until the hash tail matches. -/
def classBackAux : List Char → List Char → Option (List Char × List Char)
  | [], _ => none
  | c :: rr, rest =>
    match devHashTail rest with
    | some h => some ((c :: rr).reverse, h)
    | none => classBackAux rr (c :: rest)

/-- `re.search(r"etlegacy-v([\d\.\-]+)-(\w+)-x86_64\.sh", s)` anchored at
the head: the (version, hash) groups. -/
def devBuildAt (s : List Char) : Option (List Char × List Char) :=
  if (cs "etlegacy-v").isPrefixOf s then
    let t := s.drop (cs "etlegacy-v").length
    let run := t.takeWhile (fun c => isDigitCh c || c = '.' || c = '-')
    if run = [] then none else classBackAux run.reverse (t.drop run.length)
  else none

def searchDevBuild : List Char → Option (List Char × List Char)
  | [] => none
  | c :: t =>
    match devBuildAt (c :: t) with
    | some r => some r
    | none => searchDevBuild t

/-- `ETLegacyManager.get_dev_build_links` (`etlserver-manager.py`): links
matching the dev pattern whose `href` parses, truncated to at most 4
builds (`return builds[:4]`). -/
def getDevBuildLinks (links : List Link) : List Build :=
  ((links.filter
        (fun l => containsSub (cs "lnxx8664/etlegacy-v") l.href
          && (cs ".sh").isSuffixOf l.href)).filterMap
      (fun l => (searchDevBuild l.href).map (fun p => ⟨p.1, p.2, l.href⟩))).take 4

/-- The version-selection step of `InstallWizard.run`: an empty catalog
is the only error (`return None`); otherwise the 1-based user choice
selects a release. -/
def wizardVersionStep (choose : Nat) (versions : List Release) : Option Release :=
  if versions.isEmpty then none
  else versions[choose - 1]?

/-- A development link of the shape served by the workflow-files page. -/
def devLink (v : Char) : Link :=
  { text := cs "etlegacy-v2.0." ++ [v] ++ cs "-x86_64.sh"
    href := cs "/workflow-files/dl/1/lnxx8664/a" ++ [v] ++ cs ".sh" }

def devPage5 : List Link :=
  [devLink '0', devLink '1', devLink '2', devLink '3', devLink '4']

/-! ## Install workflow (`lib/installer.py`, `Installer.install_server`)

The workflow is embedded as a function of the outcomes of its external
steps.  Each collaborator's result enters through `InstallEnv`:
booleans are the values the collaborator methods *return* after catching
their own exceptions (`setup_etl_group`, `configure_etl_services`,
`configure_for_server`, `set_file_permissions`, `start_server`),
`downloadOk = false` is an exception raised by
`DownloadManager.download_version` (propagating uncaught, modelled as
result `none`), and `installerRet` is the vendor installer's exit code —
the only result `install_server` inspects.  `cfgExists` says whether
`<server_dir>/etmain/etl_server.cfg` exists when the unguarded
`_configure_server` call at line 84 runs: if it does, `_configure_server`
passes its `os.path.exists` guard (line 255) and raises `NameError` at
its first `re.sub` (line 275; `re` is never imported in
lib/installer.py), which propagates out of `install_server` — modelled
as result `none`; if the file is missing, `_configure_server` returns
`None` without touching `re`, and that value is ignored like the other
booleans.  The second component of the result is the ordered trace of
steps that actually executed.
-/

structure InstallConfig where
  installMaps : Bool
  ftpuser : Bool
  configureFirewall : Bool
deriving DecidableEq

structure InstallEnv where
  groupOk : Bool
  aptUpdateRet : Int
  aptInstallRet : Int
  downloadOk : Bool
  installerRet : Int
  cfgExists : Bool
  mapRets : List Int
  servicesOk : Bool
  firewallOk : Bool
  permsOk : Bool
  startOk : Bool
deriving DecidableEq

inductive Step where
  | setupGroup | makeDirs | aptUpdate | aptInstall | download | vendorInstaller
  | configure | installMaps | startScript | services | ftpSetup | firewall
  | permissions | startServer
deriving DecidableEq

/-- `Installer.install_server`: the control flow of lines 22–143.  The
results of `setup_etl_group`, the two `apt` commands, the per-map
downloads, `configure_etl_services`, `configure_for_server`,
`set_file_permissions` and `start_server` are computed by their
collaborators but never inspected here; only the vendor installer's exit
code gates the flow (`return False`), a download exception propagates,
and when the vendor config exists the configure step itself raises
`NameError` (`re` unimported), ending the run. -/
def installServer (cfg : InstallConfig) (env : InstallEnv) : Option Bool × List Step :=
  let t0 := [Step.setupGroup, Step.makeDirs, Step.aptUpdate, Step.aptInstall,
    Step.download]
  if env.downloadOk = false then (none, t0)
  else
    let t1 := t0 ++ [Step.vendorInstaller]
    if env.installerRet ≠ 0 then (some false, t1)
    else
      let t2 := t1 ++ [Step.configure]
      if env.cfgExists then (none, t2)
      else
        (some true,
          t2 ++ (if cfg.installMaps then [Step.installMaps] else [])
            ++ [Step.startScript, Step.services]
            ++ (if cfg.ftpuser then [Step.ftpSetup] else [])
            ++ (if cfg.configureFirewall then [Step.firewall] else [])
            ++ [Step.permissions, Step.startServer])

/-- An install run in which the `etusers` group-creation step reports
failure while everything else succeeds; the vendor package supplies no
`etmain/etl_server.cfg`, so the configure step's `NameError` is not
reached. -/
def groupFailEnv : InstallEnv :=
  { groupOk := false
    aptUpdateRet := 0
    aptInstallRet := 0
    downloadOk := true
    installerRet := 0
    cfgExists := false
    mapRets := []
    servicesOk := true
    firewallOk := true
    permsOk := true
    startOk := true }

def plainCfg : InstallConfig :=
  { installMaps := false, ftpuser := false, configureFirewall := false }

/-! ## Quoted-directive patterns (`lib/server_manager.py`,
`ServerManager.get_installed_servers`)

Readers of the on-disk config locate `set <key> "..."` directives with
`re.search(lit + r'\s+"(.+?)"', content)`: `get_installed_servers`
recovers the display name with `re.search(r'set sv_hostname\s+"(.+?)"',
cfg_content)` (lib/server_manager.py line 47; that module imports `re`).
The functions below implement exactly that pattern's semantics over
`List Char`: the literal, a maximal non-empty whitespace run (`\s+` is
greedy and, being followed by `"`, admits no shorter backtracking), an
opening quote, the lazily shortest *non-empty* run of non-newline
characters up to the next quote, and that closing quote; `re.search`
tries positions left to right.

`Installer._configure_server` (lib/installer.py lines 251–278) would
rewrite these directives with `re.sub`, but `re` is never imported in
that module: whenever `etmain/etl_server.cfg` exists the function raises
`NameError` at its first `re.sub` (line 275) and nothing is rewritten or
written back, so no substitution pass exists to embed.
-/

def isWS (c : Char) : Bool :=
  c = ' ' || c = '\t' || c = '\n' || c = '\r' || c = '\x0b' || c = '\x0c'

/-- Split a maximal (possibly empty) whitespace run off the input. -/
def wsSplit : List Char → List Char × List Char
  | [] => ([], [])
  | c :: t =>
    if isWS c then (c :: (wsSplit t).1, (wsSplit t).2)
    else ([], c :: t)

/-- Lazy scan to the first `"`: `some (mid, rest)` when the input is
`mid ++ '"' :: rest` with `mid` quote-free and newline-free (`.` does not
match a newline), `none` otherwise. -/
def quoteSplit : List Char → Option (List Char × List Char)
  | [] => none
  | c :: t =>
    if c = '"' then some ([], t)
    else if c = '\n' then none
    else (quoteSplit t).map (fun p => (c :: p.1, p.2))

/-- The eleven keys of the `replacements` dict literal of
`_configure_server` (only `sv_hostname`'s literal is ever consumed by
running code, in `get_installed_servers`). -/
inductive CKey where
  | svHostname | gPassword | svMaxclients | svPrivateclients | svPrivatepassword
  | rconPassword | refereePassword | shoutcastPassword | svWwwBaseURL | svHidden
  | netPort
deriving DecidableEq, Fintype

def keyName : CKey → List Char
  | .svHostname => cs "sv_hostname"
  | .gPassword => cs "g_password"
  | .svMaxclients => cs "sv_maxclients"
  | .svPrivateclients => cs "sv_privateclients"
  | .svPrivatepassword => cs "sv_privatepassword"
  | .rconPassword => cs "rconpassword"
  | .refereePassword => cs "refereePassword"
  | .shoutcastPassword => cs "ShoutcastPassword"
  | .svWwwBaseURL => cs "sv_wwwBaseURL"
  | .svHidden => cs "sv_hidden"
  | .netPort => cs "net_port"

/-- The literal part of a key's pattern. -/
def keyLit (k : CKey) : List Char := cs "set " ++ keyName k

/-! ### The group extraction itself -/

/-- The lazy non-empty group `(.+?)` followed by `"`: the first
character is unconditional (`.+` needs one), then scan to the first
quote. -/
def grabGroup (s2 : List Char) : Option (List Char × List Char) :=
  match s2 with
  | [] => none
  | c :: t =>
    if c = '\n' then none
    else (quoteSplit t).map (fun p => (c :: p.1, p.2))

/-- Match `re.compile(lit + r'\s+"(.+?)"')` at the head of `s`,
returning group 1. -/
def extractHere (lit s : List Char) : Option (List Char) :=
  if lit.isPrefixOf s then
    if (wsSplit (s.drop lit.length)).1 = [] then none
    else
      match (wsSplit (s.drop lit.length)).2 with
      | '"' :: s2 => (grabGroup s2).map Prod.fst
      | _ => none
  else none

/-- `re.search`: the leftmost position where the pattern matches. -/
def searchGroup (lit : List Char) : List Char → Option (List Char)
  | [] => none
  | c :: t =>
    match extractHere lit (c :: t) with
    | some g => some g
    | none => searchGroup lit t

/-! ## Instance registry (`lib/server_manager.py`, `ServerManager.get_installed_servers`)

The scan input is the list of full paths returned by
`glob.glob("/etc/systemd/system/etlserver-*.service")` plus a read
function (`none` models an `open` that raises, which the surrounding
`try`/`except` turns into a skipped entry) and the captured stdout of the
version probe subprocess.
-/

def digitsToNat (ds : List Char) : Nat :=
  ds.foldl (fun n c => 10 * n + (c.toNat - '0'.toNat)) 0

/-- `re.search(r'etlserver-(\d+)\.service', s)` anchored at the head:
`int(group(1))`. -/
def portAt (s : List Char) : Option Nat :=
  if (cs "etlserver-").isPrefixOf s then
    let t := s.drop (cs "etlserver-").length
    let ds := t.takeWhile isDigitCh
    if ds = [] then none
    else if (cs ".service").isPrefixOf (t.drop ds.length) then
      some (digitsToNat ds)
    else none
  else none

def searchPort : List Char → Option Nat
  | [] => none
  | c :: t =>
    match portAt (c :: t) with
    | some p => some p
    | none => searchPort t

/-- The lazy non-empty group of `re.search(r'ExecStart=(.+?)/etl_start\.sh', s)`
after the opening literal: shortest non-newline run followed by the
closing literal. -/
def lazyGroup (lit : List Char) (pre : List Char) : List Char → Option (List Char)
  | [] => if lit.isPrefixOf ([] : List Char) then some pre.reverse else none
  | d :: r =>
    if lit.isPrefixOf (d :: r) then some pre.reverse
    else if d = '\n' then none
    else lazyGroup lit (d :: pre) r

def execDirAt (content : List Char) : Option (List Char) :=
  if (cs "ExecStart=").isPrefixOf content then
    match content.drop (cs "ExecStart=").length with
    | [] => none
    | c :: t => if c = '\n' then none else lazyGroup (cs "/etl_start.sh") [c] t
  else none

def searchExecDir : List Char → Option (List Char)
  | [] => none
  | c :: t =>
    match execDirAt (c :: t) with
    | some d => some d
    | none => searchExecDir t

/-- `os.path.dirname`. -/
def dirname (p : List Char) : List Char :=
  let revTail := p.reverse.takeWhile (fun c => c != '/')
  if revTail.length = p.length then []
  else
    let head := p.take (p.length - revTail.length)
    if head.all (fun c => c == '/') then head
    else (head.reverse.dropWhile (fun c => c == '/')).reverse

/-- `re.search(r'ET Legacy v(\d+\.\d+\.\d+)', out)`: the probed binary's
version string. -/
def searchETVersion : List Char → Option (List Char)
  | [] => none
  | c :: t =>
    match
      (if (cs "ET Legacy v").isPrefixOf (c :: t) then
        (tripleAt ((c :: t).drop (cs "ET Legacy v").length)).map Prod.fst
      else none)
    with
    | some v => some v
    | none => searchETVersion t

structure SrvRecord where
  name : List Char
  port : Nat
  version : List Char
  dir : List Char
  installDir : List Char
deriving DecidableEq

/-- One iteration of the `get_installed_servers` loop on a unit-file
path: port parsed from the filename, the unit file read to recover the
working directory, the config file (when readable) for the display name,
the probe output for the version; any failure before the `ExecStart`
match means no record. -/
def recordOf (readFile : List Char → Option (List Char))
    (binOut : List Char → List Char) (path : List Char) : Option SrvRecord :=
  (searchPort path).bind fun port =>
    (readFile path).bind fun content =>
      (searchExecDir content).map fun serverDir =>
        { name :=
            match readFile (serverDir ++ cs "/etmain/etl_server.cfg") with
            | some cfgContent =>
              (searchGroup (keyLit .svHostname) cfgContent).getD
                (cs "ET Legacy Server")
            | none => cs "ET Legacy Server"
          port := port
          version := (searchETVersion (binOut serverDir)).getD (cs "Unknown")
          dir := serverDir
          installDir := dirname (dirname serverDir) }

/-- `ServerManager.get_installed_servers`. -/
def getInstalledServers (readFile : List Char → Option (List Char))
    (binOut : List Char → List Char) (files : List (List Char)) :
    List SrvRecord :=
  files.filterMap (recordOf readFile binOut)

/-! ## Theorems -/

mutual

theorem goodNode_norm (name : List Char) :
    ∀ t : PNode, goodNode name (reinstNode name (blanketNode t)) = true
  | .file _ => by
    by_cases h : execName name = true
    · simp [blanketNode, reinstNode, goodNode, h]
    · simp only [Bool.not_eq_true] at h
      simp [blanketNode, reinstNode, goodNode, h]
  | .dir _ c => by
    simpa [blanketNode, reinstNode, goodNode] using goodForest_norm c

theorem goodForest_norm :
    ∀ f : PForest, goodForest (reinstForest (blanketForest f)) = true
  | .nil => rfl
  | .cons n c r => by
    simp only [blanketForest, reinstForest, goodForest, Bool.and_eq_true]
    exact ⟨goodNode_norm n c, goodForest_norm r⟩

end

/-- C6: After `set_file_permissions` runs on an install root, every
directory under the tree has the group-write and setgid bits, every
regular file is group-writable, and every file named `*.sh` or `*.x86_64`
has an execute bit; the function is the blanket pass composed with the
later reinstatement pass, in that order. -/
theorem setFilePermissions_normalizes (t : PNode) :
    setFilePermissions t = reinstRoot (blanketRoot t) ∧
      goodTree (setFilePermissions t) = true := by
  refine ⟨rfl, ?_⟩
  cases t with
  | file m => rfl
  | dir m c =>
    simpa [setFilePermissions, blanketRoot, reinstRoot, goodTree] using
      goodForest_norm c

theorem getDevVersions_urls_sublist (links : List Link) :
    ((getDevVersions links).map Release.url).Sublist
      (links.map (fun l => devBase ++ l.href)) := by
  induction links with
  | nil => simp [getDevVersions]
  | cons l t ih =>
    simp only [getDevVersions, List.filter_cons, List.map_cons] at ih ⊢
    by_cases h : devHrefOk l.href
    · simp only [h, if_true]
      cases hv : searchDevVer l.text with
      | none =>
        simp only [List.filterMap_cons, hv, Option.map_none']
        exact ih.cons _
      | some v =>
        simp only [List.filterMap_cons, hv, Option.map_some', List.map_cons, mkDev]
        exact ih.cons₂ _
    · simp only [h, if_false]
      exact ih.cons _

theorem stablePart_stable (sf : Except Unit (List Link)) :
    ∀ r ∈ stablePart sf, r.isStable = true := by
  cases sf with
  | error e => simp [stablePart]
  | ok ls =>
    intro r hr
    simp only [stablePart, Option.mem_toList] at hr
    simp only [getStableVersion, Option.mem_def, Option.map_eq_some'] at hr
    obtain ⟨l, _, rfl⟩ := hr
    rfl

theorem devPart_dev (df : Except Unit (List Link)) :
    ∀ r ∈ devPart df, r.isStable = false := by
  cases df with
  | error e => simp [devPart]
  | ok ls =>
    intro r hr
    simp only [devPart, getDevVersions, List.mem_filterMap] at hr
    obtain ⟨l, _, hl⟩ := hr
    simp only [Option.map_eq_some'] at hl
    obtain ⟨v, _, rfl⟩ := hl
    rfl

/-- C3 (amended): in `DownloadManager.get_available_versions` the stable
release (when found) is first and development entries follow in
site-listing order (their URLs form a sublist of the page's link URLs in
order), but **no** truncation is applied there — the 4-entry cap exists
only in `ETLegacyManager.get_dev_build_links`. -/
theorem catalog_order_and_cap (sf df : Except Unit (List Link)) (links : List Link) :
    getAvailableVersions sf df = stablePart sf ++ devPart df ∧
    (∀ r ∈ stablePart sf, r.isStable = true) ∧
    (∀ r ∈ devPart df, r.isStable = false) ∧
    ((devPart df).map Release.url).Sublist
      ((pageLinks df).map (fun l => devBase ++ l.href)) ∧
    (getDevBuildLinks links).length ≤ 4 := by
  refine ⟨rfl, stablePart_stable sf, devPart_dev df, ?_, ?_⟩
  · cases df with
    | error e => simp [devPart, pageLinks]
    | ok ls => exact getDevVersions_urls_sublist ls
  · calc (getDevBuildLinks links).length ≤ 4 := by
          rw [getDevBuildLinks, List.length_take]
          exact min_le_left _ _

/-- C3 counterexample: with an unreachable stable page and a development
page listing five matching builds, `get_available_versions` returns five
development entries — the claimed 4-entry cap does not hold for the
version catalog used by the wizard. -/
theorem catalog_cap_cex :
    4 < ((getAvailableVersions (.error ()) (.ok devPage5)).filter
        (fun r => !r.isStable)).length := by decide

/-- C7: a fetch failure of either catalog source degrades the listing to
the other source's releases instead of aborting, and the caller
(`InstallWizard.run` step 3) treats only a fully empty catalog as an
error. -/
theorem catalog_partial_source (e : Unit) (ls : List Link) (choose : Nat)
    (versions : List Release) :
    getAvailableVersions (.error e) (.ok ls) = getDevVersions ls ∧
    getAvailableVersions (.ok ls) (.error e) = stablePart (.ok ls) ∧
    wizardVersionStep choose [] = none ∧
    (versions ≠ [] → 1 ≤ choose → choose ≤ versions.length →
      ∃ r, wizardVersionStep choose versions = some r) := by
  refine ⟨by simp [getAvailableVersions, stablePart, devPart],
    by simp [getAvailableVersions, devPart], rfl, ?_⟩
  intro hne h1 h2
  have hlt : choose - 1 < versions.length := by
    omega
  refine ⟨versions[choose - 1], ?_⟩
  have hemp : versions.isEmpty = false := by
    cases versions with
    | nil => exact absurd rfl hne
    | cons a t => rfl
  simp [wizardVersionStep, hemp, List.getElem?_eq_getElem hlt]

/-- Witness for `catalog_partial_source` at a concrete catalog. -/
theorem catalog_partial_source_w :
    ∃ r, wizardVersionStep 1 [mkDev ⟨[], []⟩ []] = some r :=
  (catalog_partial_source () [] 1 [mkDev ⟨[], []⟩ []]).2.2.2
    (by decide) (by decide) (by decide)

/-- C2 counterexample: the group-creation step detects failure
(`setup_etl_group` returns `False` after catching its exception), yet
`install_server` neither aborts nor reports it: the download and vendor
installer still run and, with no vendor config present to trip the
configure step's `NameError`, every remaining step runs and the workflow
returns `True`. -/
theorem install_continues_past_group_failure :
    groupFailEnv.groupOk = false ∧
    (installServer plainCfg groupFailEnv).1 = some true ∧
    Step.vendorInstaller ∈ (installServer plainCfg groupFailEnv).2 ∧
    Step.permissions ∈ (installServer plainCfg groupFailEnv).2 ∧
    Step.startServer ∈ (installServer plainCfg groupFailEnv).2 := by decide

/-- C2 (amended): only the vendor-installer step's detected failure
aborts the remaining steps with a reported failure (`False`), and a
download exception aborts by propagation; the detected failures of group
creation, service registration, firewall configuration, permissions and
server start are never inspected.  After a zero-exit vendor install the
run either crashes at the configure step with an unreported `NameError`
(`re` unimported in lib/installer.py) when `etmain/etl_server.cfg`
exists, or — when it is absent — continues past every ignored failure
and reports success. -/
theorem installServer_abort_behavior (cfg : InstallConfig) (env : InstallEnv) :
    (env.downloadOk = false →
      installServer cfg env =
        (none, [Step.setupGroup, Step.makeDirs, Step.aptUpdate, Step.aptInstall,
          Step.download])) ∧
    (env.downloadOk = true → env.installerRet ≠ 0 →
      installServer cfg env =
        (some false, [Step.setupGroup, Step.makeDirs, Step.aptUpdate,
          Step.aptInstall, Step.download, Step.vendorInstaller]) ∧
      Step.configure ∉ (installServer cfg env).2 ∧
      Step.permissions ∉ (installServer cfg env).2) ∧
    (env.downloadOk = true → env.installerRet = 0 → env.cfgExists = true →
      installServer cfg env =
        (none, [Step.setupGroup, Step.makeDirs, Step.aptUpdate, Step.aptInstall,
          Step.download, Step.vendorInstaller, Step.configure])) ∧
    (env.downloadOk = true → env.installerRet = 0 → env.cfgExists = false →
      (installServer cfg env).1 = some true ∧
      Step.permissions ∈ (installServer cfg env).2 ∧
      Step.startServer ∈ (installServer cfg env).2) := by
  refine ⟨fun hd => ?_, fun hd hr => ?_, fun hd hr hc => ?_, fun hd hr hc => ?_⟩
  · simp [installServer, hd]
  · have : installServer cfg env =
        (some false, [Step.setupGroup, Step.makeDirs, Step.aptUpdate,
          Step.aptInstall, Step.download, Step.vendorInstaller]) := by
      simp [installServer, hd, hr]
    refine ⟨this, ?_, ?_⟩ <;> rw [this] <;> decide
  · simp [installServer, hd, hr, hc]
  · refine ⟨?_, ?_, ?_⟩ <;> simp [installServer, hd, hr, hc]

/-- Witness for `installServer_abort_behavior`: with the vendor installer
exiting zero and the vendor config present, the run ends at the configure
step with no reported result. -/
theorem installServer_abort_behavior_w :
    installServer plainCfg { groupFailEnv with groupOk := true, cfgExists := true } =
      (none, [Step.setupGroup, Step.makeDirs, Step.aptUpdate, Step.aptInstall,
        Step.download, Step.vendorInstaller, Step.configure]) :=
  (installServer_abort_behavior plainCfg
      { groupFailEnv with groupOk := true, cfgExists := true }).2.2.1
    (by decide) (by decide) (by decide)

theorem recordOf_port {rf : List Char → Option (List Char)}
    {bo : List Char → List Char} {f : List Char} {rec : SrvRecord}
    (h : recordOf rf bo f = some rec) : searchPort f = some rec.port := by
  unfold recordOf at h
  rw [Option.bind_eq_some] at h
  obtain ⟨port, hp, h⟩ := h
  rw [Option.bind_eq_some] at h
  obtain ⟨content, hc, h⟩ := h
  rw [Option.map_eq_some'] at h
  obtain ⟨serverDir, hd, hrec⟩ := h
  rw [hp, ← hrec]

theorem ports_sublist (rf : List Char → Option (List Char))
    (bo : List Char → List Char) (files : List (List Char)) :
    ((getInstalledServers rf bo files).map SrvRecord.port).Sublist
      (files.filterMap searchPort) := by
  induction files with
  | nil => simp [getInstalledServers]
  | cons f t ih =>
    simp only [getInstalledServers, List.filterMap_cons] at ih ⊢
    cases hr : recordOf rf bo f with
    | some rec =>
      rw [recordOf_port hr]
      simpa using ih.cons₂ rec.port
    | none =>
      cases hsp : searchPort f with
      | none => exact ih
      | some p => exact ih.cons p

/-- C9 (amended): every record's port is parsed from a distinct unit
filename, and whenever the ports encoded by the unit filenames are
pairwise distinct — the canonical situation, since the tool writes
filenames as plain decimal `etlserver-<port>.service` — no two returned
records share a port.  Two *distinct* filenames can, however, encode the
same number (see the counterexample). -/
theorem getInstalledServers_ports_nodup (rf : List Char → Option (List Char))
    (bo : List Char → List Char) (files : List (List Char))
    (h : (files.filterMap searchPort).Nodup) :
    ((getInstalledServers rf bo files).map SrvRecord.port).Nodup :=
  List.Nodup.sublist (ports_sublist rf bo files) h

def unitPath1 : List Char := cs "/etc/systemd/system/etlserver-7.service"

def unitPath2 : List Char := cs "/etc/systemd/system/etlserver-07.service"

/-- Reads of the service-unit directory for the collision scenario: both
unit files point at the same working directory; no config file exists. -/
def unitRead (p : List Char) : Option (List Char) :=
  if p = unitPath1 ∨ p = unitPath2 then
    some (cs "ExecStart=/home/et/7/etl_start.sh")
  else none

/-- Witness for `getInstalledServers_ports_nodup` at a concrete scan. -/
theorem getInstalledServers_ports_nodup_w :
    ((getInstalledServers unitRead (fun _ => []) [unitPath1]).map
        SrvRecord.port).Nodup :=
  getInstalledServers_ports_nodup unitRead (fun _ => []) [unitPath1] (by decide)

/-- C9 counterexample: the unit files `etlserver-7.service` and
`etlserver-07.service` both match the glob `etlserver-*.service` and are
distinct filenames, yet `int()` collapses the leading zero, so
`get_installed_servers` returns two records with port 7. -/
theorem registry_port_collision :
    ((getInstalledServers unitRead (fun _ => []) [unitPath1, unitPath2]).map
          SrvRecord.port = [7, 7]) ∧
    ¬ ((getInstalledServers unitRead (fun _ => []) [unitPath1, unitPath2]).map
          SrvRecord.port).Nodup := by
  refine ⟨by decide, ?_⟩
  intro h
  rw [(by decide :
    (getInstalledServers unitRead (fun _ => []) [unitPath1, unitPath2]).map
        SrvRecord.port = [7, 7])] at h
  simp at h

